import Mathlib

/-!
Verification development for the aipal agent core.

The development shallowly embeds the JavaScript sources:
the codex command builder and output parser (src/agent.js),
the session/thread resolver (src/thread-store.js), and the
agent runner (src/services/agent-runner.js).  JavaScript `Map`
objects are embedded as association lists with get/set/delete
operating on the first matching key (delete removes every
occurrence, which coincides with `Map.delete` because `Map`
keys are unique).  JavaScript string truthiness is embedded
explicitly: `undefined` and the empty string are falsy.
-/

/-- Embedding of a JavaScript `Map` whose keys are strings. -/
def JsMap (α : Type) : Type := List (String × α)

/-- Embedding of `Map.prototype.get`: the value at the first matching key. -/
def mget {α : Type} : JsMap α → String → Option α
  | [], _ => none
  | e :: m, k => if e.1 = k then some e.2 else mget m k

/-- Embedding of `Map.prototype.set`: replace the first matching entry, else append. -/
def mset {α : Type} : JsMap α → String → α → JsMap α
  | [], k, v => [(k, v)]
  | e :: m, k, v => if e.1 = k then (k, v) :: m else e :: mset m k v

/-- Embedding of `Map.prototype.delete` (keys are unique in a `Map`, so removing
every occurrence agrees with removing the entry). -/
def mdelete {α : Type} : JsMap α → String → JsMap α
  | [], _ => []
  | e :: m, k => if e.1 = k then mdelete m k else e :: mdelete m k

/-- JavaScript truthiness of a possibly-undefined string:
`undefined` and the empty string are falsy. -/
def truthyStr (o : Option String) : Bool :=
  match o with
  | none => false
  | some s => !s.isEmpty

theorem mget_mset_self {α : Type} (m : JsMap α) (k : String) (v : α) :
    mget (mset m k v) k = some v := by
  induction m with
  | nil => simp [mget, mset]
  | cons e m ih =>
    by_cases h : e.1 = k
    · simp [mset, h, mget]
    · simp [mset, h, mget, ih]

theorem mget_mset_ne {α : Type} (m : JsMap α) (k k' : String) (v : α) (h : k ≠ k') :
    mget (mset m k v) k' = mget m k' := by
  induction m with
  | nil =>
    show mget [(k, v)] k' = none
    simp [mget, h]
  | cons e m ih =>
    by_cases he : e.1 = k
    · have hek' : ¬ e.1 = k' := fun hc => h (he.symm.trans hc)
      rw [show mset (e :: m) k v = (k, v) :: m from by simp [mset, he]]
      simp [mget, h, hek']
    · rw [show mset (e :: m) k v = e :: mset m k v from by simp [mset, he]]
      by_cases he' : e.1 = k'
      · simp [mget, he']
      · simp [mget, he', ih]

theorem mget_mdelete_self {α : Type} (m : JsMap α) (k : String) :
    mget (mdelete m k) k = none := by
  induction m with
  | nil => simp [mget, mdelete]
  | cons e m ih =>
    by_cases h : e.1 = k
    · simp [mdelete, h, ih]
    · simp [mdelete, h, mget, ih]

theorem mget_mdelete_ne {α : Type} (m : JsMap α) (k k' : String) (h : k ≠ k') :
    mget (mdelete m k) k' = mget m k' := by
  induction m with
  | nil => simp [mdelete]
  | cons e m ih =>
    by_cases he : e.1 = k
    · have hek' : ¬ e.1 = k' := fun hc => h (he.symm.trans hc)
      rw [show mdelete (e :: m) k = mdelete m k from by simp [mdelete, he]]
      simp [mget, hek', ih]
    · rw [show mdelete (e :: m) k = e :: mdelete m k from by simp [mdelete, he]]
      by_cases he' : e.1 = k'
      · simp [mget, he']
      · simp [mget, he', ih]

/-! ## Session/thread resolver (src/thread-store.js)

`resolveThreadId(threads, chatId, agentId)` looks up the canonical
key `chatId:agentId`; on a miss it looks up the legacy key (the bare
conversation scope), migrates a found value to the canonical key and
deletes the legacy entry.  The conversation scope (chat id, possibly
combined with a topic) is embedded as one string. -/

/-- Embedding of `buildThreadKey` from src/thread-store.js. -/
def buildThreadKey (chatId agentId : String) : String :=
  chatId ++ ":" ++ agentId

/-- Embedding of `getLegacyThreadKey` from src/thread-store.js. -/
def getLegacyThreadKey (chatId : String) : String :=
  chatId

/-- The map from conversation keys to agent session ids. -/
abbrev ThreadMap : Type := JsMap String

/-- The record returned by `resolveThreadId`. -/
structure ResolveResult where
  threadKey : String
  threadId : Option String
  migrated : Bool
deriving DecidableEq, Repr

/-- Embedding of `resolveThreadId` from src/thread-store.js.  The function
mutates the map on migration, so the embedding returns the result record
together with the updated map. -/
def resolveThreadId (threads : ThreadMap) (chatId agentId : String) :
    ResolveResult × ThreadMap :=
  let threadKey := buildThreadKey chatId agentId
  let direct := mget threads threadKey
  if truthyStr direct then
    (⟨threadKey, direct, false⟩, threads)
  else
    let legacyKey := getLegacyThreadKey chatId
    let legacy := mget threads legacyKey
    if truthyStr legacy then
      (⟨threadKey, legacy, true⟩, mdelete (mset threads threadKey (legacy.getD "")) legacyKey)
    else
      (⟨threadKey, none, false⟩, threads)

theorem buildThreadKey_ne_legacy (chatId agentId : String) :
    buildThreadKey chatId agentId ≠ getLegacyThreadKey chatId := by
  intro h
  have hlen := congrArg String.length h
  rw [buildThreadKey, getLegacyThreadKey, String.length_append, String.length_append] at hlen
  have hone : (":" : String).length = 1 := rfl
  rw [hone] at hlen
  omega

theorem truthyStr_some_of_ne (v : String) (hv : v ≠ "") : truthyStr (some v) = true := by
  have hempty : v.isEmpty = false := by
    cases h : v.isEmpty
    · rfl
    · exact absurd ((String.isEmpty_iff v).mp h) hv
  simp [truthyStr, hempty]

/-- C3: a thread map whose only entry for a conversation sits under the legacy
key (conversation scope only, no agent id) resolves to that value with
`migrated = true`; the value moves under the canonical scope+agent key and the
legacy entry is deleted; a second resolution for the same scope and agent then
finds the value under the canonical key with `migrated = false` and leaves the
map unchanged, so the migration happens at most once per key. -/
theorem claim_C3_legacy_migration (threads : ThreadMap) (chatId agentId v : String)
    (hdirect : truthyStr (mget threads (buildThreadKey chatId agentId)) = false)
    (hleg : mget threads (getLegacyThreadKey chatId) = some v) (hv : v ≠ "") :
    (resolveThreadId threads chatId agentId).1
      = ⟨buildThreadKey chatId agentId, some v, true⟩
    ∧ mget (resolveThreadId threads chatId agentId).2 (buildThreadKey chatId agentId) = some v
    ∧ mget (resolveThreadId threads chatId agentId).2 (getLegacyThreadKey chatId) = none
    ∧ (resolveThreadId (resolveThreadId threads chatId agentId).2 chatId agentId).1
      = ⟨buildThreadKey chatId agentId, some v, false⟩
    ∧ (resolveThreadId (resolveThreadId threads chatId agentId).2 chatId agentId).2
      = (resolveThreadId threads chatId agentId).2 := by
  have htr := truthyStr_some_of_ne v hv
  have hkey := buildThreadKey_ne_legacy chatId agentId
  have hget2 : mget (mdelete (mset threads (buildThreadKey chatId agentId) v)
        (getLegacyThreadKey chatId)) (buildThreadKey chatId agentId) = some v := by
    rw [mget_mdelete_ne _ _ _ (Ne.symm hkey), mget_mset_self]
  have hfirst : resolveThreadId threads chatId agentId
      = (⟨buildThreadKey chatId agentId, some v, true⟩,
         mdelete (mset threads (buildThreadKey chatId agentId) v) (getLegacyThreadKey chatId)) := by
    simp [resolveThreadId, hdirect, hleg, htr]
  have hsecond : resolveThreadId
        (mdelete (mset threads (buildThreadKey chatId agentId) v) (getLegacyThreadKey chatId))
        chatId agentId
      = (⟨buildThreadKey chatId agentId, some v, false⟩,
         mdelete (mset threads (buildThreadKey chatId agentId) v) (getLegacyThreadKey chatId)) := by
    simp [resolveThreadId, hget2, htr]
  rw [hfirst]
  exact ⟨rfl, hget2, mget_mdelete_self _ _, by rw [hsecond], by rw [hsecond]⟩

/-- C7: resolution on an empty thread map yields an undefined session id and
`migrated = false` for every conversation scope and agent id; once a session id
has been persisted under the canonical key, a later resolution for the same
scope and agent returns exactly the persisted id and does not change the map. -/
theorem claim_C7_empty_and_persisted (threads : ThreadMap) (chatId agentId sid : String)
    (hs : sid ≠ "") :
    (resolveThreadId ([] : ThreadMap) chatId agentId
      = (⟨buildThreadKey chatId agentId, none, false⟩, ([] : ThreadMap)))
    ∧ (resolveThreadId (mset threads (buildThreadKey chatId agentId) sid) chatId agentId
      = (⟨buildThreadKey chatId agentId, some sid, false⟩,
         mset threads (buildThreadKey chatId agentId) sid)) := by
  constructor
  · simp [resolveThreadId, mget, truthyStr]
  · have hget : mget (mset threads (buildThreadKey chatId agentId) sid)
        (buildThreadKey chatId agentId) = some sid := mget_mset_self _ _ _
    simp [resolveThreadId, hget, truthyStr_some_of_ne sid hs]

/-! ## Codex command builder (src/agent.js)

Characters that the banned-free embedding needs by code point:
39 is the single quote, 92 the backslash, 34 the double quote. -/

/-- The single quote character. -/
def squoteChar : Char := Char.ofNat 39

/-- The backslash character. -/
def bslashChar : Char := Char.ofNat 92

/-- The double quote character. -/
def dquoteChar : Char := Char.ofNat 34

/-- Whitespace as treated by JavaScript `String.prototype.trim` and by the
POSIX word splitter (restricted to the ASCII whitespace that can occur in the
embedded commands). -/
def jsWS (c : Char) : Bool :=
  c = ' ' || c = '\t' || c = '\n' || c = '\r'

/-- Trimming on character lists: drop whitespace from both ends. -/
def jsTrimData (l : List Char) : List Char :=
  ((l.dropWhile jsWS).reverse.dropWhile jsWS).reverse

/-- Embedding of JavaScript `String.prototype.trim`. -/
def jsTrim (s : String) : String :=
  ⟨jsTrimData s.data⟩

/-- Constant `CODEX_CMD` from src/agent.js. -/
def CODEX_CMD : String := "codex"

/-- Constant `BASE_ARGS` from src/agent.js. -/
def BASE_ARGS : String := "--json --skip-git-repo-check"

/-- Constant `MODEL_ARG` from src/agent.js. -/
def MODEL_ARG : String := "--model"

/-- Constant `THINKING_ARG` from src/agent.js. -/
def THINKING_ARG : String := "--thinking"

/-- The per-character effect of the regex replacement done by `shellQuote`:
an embedded single quote becomes quote backslash quote quote, every other
character is kept unchanged. -/
def escQuoteChar (c : Char) : List Char :=
  if c = squoteChar then [squoteChar, bslashChar, squoteChar, squoteChar] else [c]

/-- Embedding of `shellQuote` from src/agent.js: replace every single quote by
the escape sequence and wrap the result in single quotes. -/
def shellQuote (s : String) : String :=
  ⟨squoteChar :: (s.data.flatMap escQuoteChar ++ [squoteChar])⟩

/-- The options object taken by `buildAgentCommand`. -/
structure AgentCommandOptions where
  threadId : Option String := none
  promptExpression : Option String := none
  model : Option String := none
  thinking : Option String := none

/-- Embedding of `resolvePromptValue` from src/agent.js. -/
def resolvePromptValue (prompt : String) (promptExpression : Option String) : String :=
  if truthyStr promptExpression then promptExpression.getD "" else shellQuote prompt

/-- Embedding of `appendOptionalArg` from src/agent.js. -/
def appendOptionalArg (args : String) (flag : String) (value : Option String) : String :=
  if flag.isEmpty || !truthyStr value then args
  else jsTrim (args ++ " " ++ flag ++ " " ++ shellQuote (value.getD ""))

/-- Embedding of `buildAgentCommand` from src/agent.js. -/
def buildAgentCommand (prompt : String) (options : AgentCommandOptions) : String :=
  let promptValue := resolvePromptValue prompt options.promptExpression
  let args := BASE_ARGS
  let args := appendOptionalArg args MODEL_ARG options.model
  let args := appendOptionalArg args THINKING_ARG options.thinking
  if truthyStr options.threadId then
    jsTrim (CODEX_CMD ++ " exec resume " ++ shellQuote (options.threadId.getD "")
      ++ " " ++ args ++ " " ++ promptValue)
  else
    jsTrim (CODEX_CMD ++ " exec " ++ args ++ " " ++ promptValue)

/-! ## A POSIX shell word splitter

Used to state the round-trip property of `shellQuote`: scanning a command
character by character, honouring unquoted backslash escapes, single-quoted
segments (everything literal) and double-quoted segments (backslash escapes
the double quote, the backslash and the dollar sign).  Expansions are out of
scope: only word splitting is modelled. -/

/-- Scanner mode of the splitter. -/
inductive SpMode where
  | norm
  | normEsc
  | single
  | double
  | doubleEsc
deriving DecidableEq, Repr

/-- Scanner state: words emitted so far, the word being accumulated (`none`
when no word has started), and the mode. -/
structure SpState where
  words : List (List Char)
  cur : Option (List Char)
  mode : SpMode
deriving DecidableEq, Repr

/-- One character of POSIX word splitting. -/
def spStep (s : SpState) (c : Char) : SpState :=
  match s.mode with
  | .norm =>
    if jsWS c then
      match s.cur with
      | some w => ⟨s.words ++ [w], none, .norm⟩
      | none => s
    else if c = bslashChar then ⟨s.words, some (s.cur.getD []), .normEsc⟩
    else if c = squoteChar then ⟨s.words, some (s.cur.getD []), .single⟩
    else if c = dquoteChar then ⟨s.words, some (s.cur.getD []), .double⟩
    else ⟨s.words, some (s.cur.getD [] ++ [c]), .norm⟩
  | .normEsc => ⟨s.words, some (s.cur.getD [] ++ [c]), .norm⟩
  | .single =>
    if c = squoteChar then ⟨s.words, s.cur, .norm⟩
    else ⟨s.words, some (s.cur.getD [] ++ [c]), .single⟩
  | .double =>
    if c = dquoteChar then ⟨s.words, s.cur, .norm⟩
    else if c = bslashChar then ⟨s.words, s.cur, .doubleEsc⟩
    else ⟨s.words, some (s.cur.getD [] ++ [c]), .double⟩
  | .doubleEsc =>
    if c = dquoteChar || c = bslashChar || c = '$' then
      ⟨s.words, some (s.cur.getD [] ++ [c]), .double⟩
    else ⟨s.words, some (s.cur.getD [] ++ [bslashChar, c]), .double⟩

/-- Final words of a scan; `none` when a quote or escape is unterminated. -/
def spFinish (s : SpState) : Option (List (List Char)) :=
  match s.mode with
  | .norm => some (s.words ++ (match s.cur with | some w => [w] | none => []))
  | _ => none

/-- POSIX word splitting of a character list. -/
def splitPosix (l : List Char) : Option (List (List Char)) :=
  spFinish (l.foldl spStep ⟨[], none, .norm⟩)

theorem jsWS_squote : jsWS squoteChar = false := by decide

theorem jsWS_bslash : jsWS bslashChar = false := by decide

theorem squote_ne_bslash : ¬ (squoteChar = bslashChar) := by decide

theorem squote_ne_dquote : ¬ (squoteChar = dquoteChar) := by decide

theorem spRun_escQuote_single (ws : List (List Char)) (a : List Char) (c : Char) :
    List.foldl spStep ⟨ws, some a, .single⟩ (escQuoteChar c) = ⟨ws, some (a ++ [c]), .single⟩ := by
  by_cases hc : c = squoteChar
  · subst hc
    simp [escQuoteChar, spStep, jsWS_squote, jsWS_bslash, squote_ne_bslash, squote_ne_dquote]
  · simp [escQuoteChar, hc, spStep]

theorem spRun_body (l : List Char) :
    ∀ (ws : List (List Char)) (a : List Char),
      List.foldl spStep ⟨ws, some a, .single⟩ (l.flatMap escQuoteChar)
        = ⟨ws, some (a ++ l), .single⟩ := by
  induction l with
  | nil => intro ws a; simp
  | cons c l ih =>
    intro ws a
    rw [List.flatMap_cons, List.foldl_append, spRun_escQuote_single, ih]
    simp

theorem spRun_shellQuote (l : List Char) (ws : List (List Char)) :
    List.foldl spStep ⟨ws, none, .norm⟩ (squoteChar :: (l.flatMap escQuoteChar ++ [squoteChar]))
      = ⟨ws, some l, .norm⟩ := by
  rw [List.foldl_cons]
  have hopen : spStep ⟨ws, none, .norm⟩ squoteChar = ⟨ws, some [], .single⟩ := by
    simp [spStep, jsWS_squote, squote_ne_bslash]
  rw [hopen, List.foldl_append, spRun_body]
  simp [spStep]

theorem dropWhile_eq_self_of_head (p : Char → Bool) (l : List Char)
    (h : ∀ c, l.head? = some c → p c = false) : l.dropWhile p = l := by
  cases l with
  | nil => rfl
  | cons c t =>
    rw [List.dropWhile_cons, h c rfl]
    simp

theorem jsTrimData_eq_self (l : List Char)
    (h1 : ∀ c, l.head? = some c → jsWS c = false)
    (h2 : ∀ c, l.getLast? = some c → jsWS c = false) :
    jsTrimData l = l := by
  rw [jsTrimData, dropWhile_eq_self_of_head _ _ h1, dropWhile_eq_self_of_head, List.reverse_reverse]
  intro c hc
  rw [List.head?_reverse] at hc
  exact h2 c hc

theorem spRun_codex_prefix :
    List.foldl spStep ⟨[], none, .norm⟩ ("codex exec --json --skip-git-repo-check ".data)
      = ⟨["codex".data, "exec".data, "--json".data, "--skip-git-repo-check".data],
         none, .norm⟩ := by
  decide

/-- C5: `shellQuote` wraps a value in single quotes, escaping each embedded
single quote, and for every prompt string, including prompts that contain
single quotes, double quotes, spaces and backslashes, the command produced by
`buildAgentCommand` splits under a POSIX shell word splitter into the fixed
codex words followed by exactly the original prompt as a single argument. -/
theorem claim_C5_shellQuote_roundtrip (p : String) :
    splitPosix ((buildAgentCommand p {}).data)
      = some ["codex".data, "exec".data, "--json".data, "--skip-git-repo-check".data, p.data]
    ∧ splitPosix ((shellQuote p).data) = some [p.data] := by
  have hq : ∀ ws, List.foldl spStep ⟨ws, none, .norm⟩ ((shellQuote p).data)
      = ⟨ws, some p.data, .norm⟩ := fun ws => spRun_shellQuote p.data ws
  constructor
  · have hcmd : buildAgentCommand p {}
        = jsTrim (CODEX_CMD ++ " exec " ++ BASE_ARGS ++ " " ++ shellQuote p) := rfl
    have hpre : (CODEX_CMD ++ " exec " ++ BASE_ARGS ++ " ").data
        = "codex exec --json --skip-git-repo-check ".data := by decide
    have hdata : (buildAgentCommand p {}).data
        = jsTrimData ("codex exec --json --skip-git-repo-check ".data ++ (shellQuote p).data) := by
      rw [hcmd]
      show jsTrimData ((CODEX_CMD ++ " exec " ++ BASE_ARGS ++ " " ++ shellQuote p).data) = _
      rw [show CODEX_CMD ++ " exec " ++ BASE_ARGS ++ " " ++ shellQuote p
            = (CODEX_CMD ++ " exec " ++ BASE_ARGS ++ " ") ++ shellQuote p from rfl,
          String.data_append, hpre]
    have hshape : "codex exec --json --skip-git-repo-check ".data ++ (shellQuote p).data
        = ("codex exec --json --skip-git-repo-check ".data
            ++ (squoteChar :: p.data.flatMap escQuoteChar)) ++ [squoteChar] := by
      show "codex exec --json --skip-git-repo-check ".data
          ++ (squoteChar :: (p.data.flatMap escQuoteChar ++ [squoteChar])) = _
      rw [← List.cons_append, ← List.append_assoc]
    have htrim : jsTrimData ("codex exec --json --skip-git-repo-check ".data
          ++ (shellQuote p).data)
        = "codex exec --json --skip-git-repo-check ".data ++ (shellQuote p).data := by
      refine jsTrimData_eq_self _ ?_ ?_
      · intro c hc
        rw [List.head?_append] at hc
        have : c = 'c' := by
          simp [show ("codex exec --json --skip-git-repo-check ".data).head? = some 'c'
            from by decide] at hc
          exact hc.symm
        subst this
        decide
      · intro c hc
        rw [hshape, List.getLast?_concat] at hc
        have : c = squoteChar := by simpa using hc.symm
        subst this
        exact jsWS_squote
    rw [hdata, htrim, splitPosix, List.foldl_append, spRun_codex_prefix, hq]
    simp [spFinish]
  · rw [splitPosix, hq]
    simp [spFinish]

/-! ## Agent runner (src/services/agent-runner.js)

`runAgentForChat` resolves the session, counts the turn, assembles the
prompt, invokes the external process, parses its output, optionally recovers
a session id through the listing fallback and persists the session id.
External collaborators are injected: the embedding receives their behaviour
for the one run through an environment record.  The conversation scope (chat
id, possibly combined with a topic id) is the string handed to the resolver.
The two maps owned by the runner are threaded explicitly and are returned
even when the run ends by rethrowing the execution error, exactly as the
in-place `Map` mutations of the source survive a throw. -/

/-- The normalized result of an adapter output parser (`parseOutput`). -/
structure ParsedAgentOutput where
  text : String
  threadId : Option String
  sawJson : Bool

/-- An error thrown by the process execution collaborator `execLocal`;
`stdout` carries the partial standard output when the process wrote any. -/
structure ExecErr where
  stdout : Option String
deriving DecidableEq, Repr

/-- Configuration and collaborator behaviour for one `runAgentForChat` call. -/
structure AgentRunnerEnv where
  fileInstructionsEvery : Nat
  chatId : String
  agentId : String
  agentIsClaude : Bool
  prefixTextWithTimestamp : String → String
  bootstrapContext : String
  retrievalContext : String
  buildPrompt : String → Bool → String
  parseOutput : String → ParsedAgentOutput
  hasListSessionsCommand : Bool
  parseSessionList : Option (String → Option String)
  execMain : Except ExecErr String
  execList : Except ExecErr String

/-- Observable intermediate decisions of one run. -/
structure RunTrace where
  includeFileInstructions : Bool
  finalPrompt : String

/-- The full outcome of one run: the reply or rethrown error, the two maps
after the run, and the trace. -/
structure RunResult where
  outcome : Except ExecErr String
  threads : ThreadMap
  threadTurns : JsMap Nat
  trace : RunTrace

/-- The tail of `runAgentForChat` after a usable output was obtained: session
id recovery through the listing fallback (a listing failure is logged and
swallowed), persistence of an obtained id under the canonical key, and the
reply (`parsed.text || output`). -/
def finishAgentRun (env : AgentRunnerEnv) (threadKey : String)
    (parsed : ParsedAgentOutput) (output : String) (threads : ThreadMap) :
    Except ExecErr String × ThreadMap :=
  let parsedThreadId :=
    if !truthyStr parsed.threadId && env.hasListSessionsCommand then
      match env.execList with
      | .ok listOutput =>
        match env.parseSessionList with
        | some parseSessionList =>
          match parseSessionList listOutput with
          | some resolved => if truthyStr (some resolved) then some resolved else parsed.threadId
          | none => parsed.threadId
        | none => parsed.threadId
      | .error _ => parsed.threadId
    else parsed.threadId
  let threads :=
    if truthyStr parsedThreadId then mset threads threadKey (parsedThreadId.getD "")
    else threads
  (.ok (if truthyStr (some parsed.text) then parsed.text else output), threads)

/-- Embedding of `runAgentForChat` from src/services/agent-runner.js. -/
def runAgentForChat (env : AgentRunnerEnv) (prompt : String)
    (threads : ThreadMap) (threadTurns : JsMap Nat) : RunResult :=
  let resolved := (resolveThreadId threads env.chatId env.agentId).1
  let threads1 := (resolveThreadId threads env.chatId env.agentId).2
  let turnCount := (mget threadTurns resolved.threadKey).getD 0 + 1
  let threadTurns1 := mset threadTurns resolved.threadKey turnCount
  let shouldIncludeFileInstructions :=
    !truthyStr resolved.threadId || turnCount % env.fileInstructionsEvery == 0
  let promptWithContext :=
    if env.agentIsClaude then env.prefixTextWithTimestamp prompt else prompt
  let promptWithContext :=
    if !truthyStr resolved.threadId then
      if truthyStr (some promptWithContext) then
        env.bootstrapContext ++ "\n\n" ++ promptWithContext
      else env.bootstrapContext
    else promptWithContext
  let promptWithContext :=
    if truthyStr (some env.retrievalContext) then
      if truthyStr (some promptWithContext) then
        promptWithContext ++ "\n\n" ++ env.retrievalContext
      else env.retrievalContext
    else promptWithContext
  let finalPrompt := env.buildPrompt promptWithContext shouldIncludeFileInstructions
  let trace : RunTrace := ⟨shouldIncludeFileInstructions, finalPrompt⟩
  let tail : Except ExecErr String × ThreadMap :=
    match env.execMain with
    | .ok output =>
      finishAgentRun env resolved.threadKey (env.parseOutput output) output threads1
    | .error err =>
      match err.stdout with
      | some s =>
        if truthyStr (some (jsTrim s)) then
          let parsed := env.parseOutput s
          if !parsed.sawJson && !truthyStr (some (jsTrim parsed.text)) then
            (.error err, threads1)
          else finishAgentRun env resolved.threadKey parsed s threads1
        else (.error err, threads1)
      | none => (.error err, threads1)
  ⟨tail.1, tail.2, threadTurns1, trace⟩

/-- C6: the file handling instructions are requested for the assembled prompt
exactly when no existing session id was resolved for the conversation key or
the incremented turn count is an exact multiple of the configured cadence. -/
theorem claim_C6_file_instruction_cadence (env : AgentRunnerEnv) (prompt : String)
    (threads : ThreadMap) (threadTurns : JsMap Nat) :
    (runAgentForChat env prompt threads threadTurns).trace.includeFileInstructions = true
    ↔ (truthyStr (resolveThreadId threads env.chatId env.agentId).1.threadId = false
       ∨ ((mget threadTurns (resolveThreadId threads env.chatId env.agentId).1.threadKey).getD 0
            + 1) % env.fileInstructionsEvery = 0) := by
  have hflag : (runAgentForChat env prompt threads threadTurns).trace.includeFileInstructions
      = (!truthyStr (resolveThreadId threads env.chatId env.agentId).1.threadId
         || ((mget threadTurns (resolveThreadId threads env.chatId env.agentId).1.threadKey).getD 0
              + 1) % env.fileInstructionsEvery == 0) := rfl
  rw [hflag]
  simp [Bool.or_eq_true, Bool.not_eq_true']

/-- C1: when the external process throws but its stdout is usable (at least
one structured record parsed, or the extracted reply text is non-empty after
trimming), the run proceeds and returns that output as a soft failure; when
the process fails and stdout is not usable (absent, only whitespace, or
neither parsed nor yielding non-empty text), the execution error propagates
to the caller. -/
theorem claim_C1_soft_vs_hard_failure (env : AgentRunnerEnv) (prompt : String)
    (threads : ThreadMap) (threadTurns : JsMap Nat) (e : ExecErr)
    (h : env.execMain = .error e) :
    (∀ s, e.stdout = some s → jsTrim s ≠ "" →
      ((env.parseOutput s).sawJson = true ∨ jsTrim (env.parseOutput s).text ≠ "") →
      (runAgentForChat env prompt threads threadTurns).outcome
        = .ok (if truthyStr (some (env.parseOutput s).text)
                 then (env.parseOutput s).text else s))
    ∧ ((∀ s, e.stdout = some s →
          jsTrim s = ""
          ∨ ((env.parseOutput s).sawJson = false ∧ jsTrim (env.parseOutput s).text = "")) →
      (runAgentForChat env prompt threads threadTurns).outcome = .error e) := by
  constructor
  · intro s hs hts hp
    have htr : truthyStr (some (jsTrim s)) = true := truthyStr_some_of_ne _ hts
    have hcond : (!(env.parseOutput s).sawJson
        && !truthyStr (some (jsTrim (env.parseOutput s).text))) = false := by
      rcases hp with hp | hp
      · simp [hp]
      · simp [truthyStr_some_of_ne _ hp]
    simp [runAgentForChat, h, hs, htr, hcond, finishAgentRun]
  · intro hno
    cases hsd : e.stdout with
    | none => simp [runAgentForChat, h, hsd]
    | some s =>
      by_cases hts : jsTrim s = ""
      · have htr : truthyStr (some (jsTrim s)) = false := by
          rw [hts]
          rfl
        simp [runAgentForChat, h, hsd, htr]
      · rcases hno s hsd with hq | ⟨hsaw, htxt⟩
        · exact absurd hq hts
        · have htr : truthyStr (some (jsTrim s)) = true := truthyStr_some_of_ne _ hts
          have hcond : (!(env.parseOutput s).sawJson
              && !truthyStr (some (jsTrim (env.parseOutput s).text))) = true := by
            rw [hsaw, htxt]
            rfl
          simp [runAgentForChat, h, hsd, htr, hcond]

/-- C2: after a run whose output parsed with no session id and whose agent
exposes the listing fallback, the fallback is executed and parsed to recover
a session id; a session id obtained directly or through the fallback is
written into the thread map under the canonical key; a failing fallback
listing is swallowed and the turn still returns its reply text with no
session id persisted. -/
theorem claim_C2_session_recovery (env : AgentRunnerEnv) (prompt : String)
    (threads : ThreadMap) (threadTurns : JsMap Nat) (out : String)
    (hok : env.execMain = .ok out) :
    (truthyStr (env.parseOutput out).threadId = true →
      (runAgentForChat env prompt threads threadTurns).threads
        = mset (resolveThreadId threads env.chatId env.agentId).2
            (resolveThreadId threads env.chatId env.agentId).1.threadKey
            ((env.parseOutput out).threadId.getD ""))
    ∧ (truthyStr (env.parseOutput out).threadId = false → env.hasListSessionsCommand = true →
      ∀ listOut f r, env.execList = .ok listOut → env.parseSessionList = some f →
        f listOut = some r → r ≠ "" →
        (runAgentForChat env prompt threads threadTurns).threads
          = mset (resolveThreadId threads env.chatId env.agentId).2
              (resolveThreadId threads env.chatId env.agentId).1.threadKey r
        ∧ (runAgentForChat env prompt threads threadTurns).outcome
          = .ok (if truthyStr (some (env.parseOutput out).text)
                   then (env.parseOutput out).text else out))
    ∧ (truthyStr (env.parseOutput out).threadId = false → env.hasListSessionsCommand = true →
      ∀ err2, env.execList = .error err2 →
        (runAgentForChat env prompt threads threadTurns).threads
          = (resolveThreadId threads env.chatId env.agentId).2
        ∧ (runAgentForChat env prompt threads threadTurns).outcome
          = .ok (if truthyStr (some (env.parseOutput out).text)
                   then (env.parseOutput out).text else out)) := by
  refine ⟨?_, ?_, ?_⟩
  · intro hdirect
    simp [runAgentForChat, hok, finishAgentRun, hdirect]
  · intro hnone hcap listOut f r hlist hpsl hf hr
    have htr : truthyStr (some r) = true := truthyStr_some_of_ne _ hr
    constructor
    · simp [runAgentForChat, hok, finishAgentRun, hnone, hcap, hlist, hpsl, hf, htr]
    · simp [runAgentForChat, hok, finishAgentRun]
  · intro hnone hcap err2 hlist
    constructor
    · simp [runAgentForChat, hok, finishAgentRun, hnone, hcap, hlist]
    · simp [runAgentForChat, hok, finishAgentRun]

/-- Concrete runner environment for the C10 analysis: a hard execution
failure (no stdout on the error) for a conversation whose map still holds a
legacy entry. -/
def envC10 : AgentRunnerEnv :=
  ⟨5, "c", "a", false, fun s => s, "", "", fun s _ => s,
   fun _ => ⟨"", none, false⟩, false, none, .error ⟨none⟩, .error ⟨none⟩⟩

/-- C10 counterexample: on a call that ends by rethrowing a hard execution
failure, the threads map is NOT always left unchanged: when the conversation
only had a legacy entry, session resolution migrated it to the canonical key
before the process ran, so the map differs afterwards. -/
theorem claim_C10_counterexample :
    (runAgentForChat envC10 "hola" [("c", "t1")] []).outcome = .error ⟨none⟩
    ∧ (runAgentForChat envC10 "hola" [("c", "t1")] []).threads ≠ [("c", "t1")] := by
  constructor
  · rfl
  · intro hc
    have hthreads : (runAgentForChat envC10 "hola" [("c", "t1")] []).threads
        = [("c:a", "t1")] := rfl
    rw [hthreads] at hc
    have : ("c:a", "t1") = (("c", "t1") : String × String) := by
      injection hc
    simp at this

/-- C10 (amended): every call to the runner increments the turn counter under
the resolved thread key by exactly one, and the increment persists even when
the call ends by rethrowing a hard execution failure; on such a failed call
the threads map equals the map as left by session resolution (unchanged
except for a possible legacy-key migration during resolution), because the
runner itself writes the map only when a session id was obtained. -/
theorem claim_C10_amended_turns_and_threads (env : AgentRunnerEnv) (prompt : String)
    (threads : ThreadMap) (threadTurns : JsMap Nat) :
    (runAgentForChat env prompt threads threadTurns).threadTurns
      = mset threadTurns (resolveThreadId threads env.chatId env.agentId).1.threadKey
          ((mget threadTurns (resolveThreadId threads env.chatId env.agentId).1.threadKey).getD 0
            + 1)
    ∧ (∀ e, (runAgentForChat env prompt threads threadTurns).outcome = .error e →
        (runAgentForChat env prompt threads threadTurns).threads
          = (resolveThreadId threads env.chatId env.agentId).2) := by
  constructor
  · rfl
  · intro e he
    cases hm : env.execMain with
    | ok out =>
      have hout : (runAgentForChat env prompt threads threadTurns).outcome
          = .ok (if truthyStr (some (env.parseOutput out).text)
                   then (env.parseOutput out).text else out) := by
        simp [runAgentForChat, hm, finishAgentRun]
      rw [hout] at he
      exact absurd he (by simp)
    | error err =>
      cases hsd : err.stdout with
      | none => simp [runAgentForChat, hm, hsd]
      | some s =>
        by_cases hts : truthyStr (some (jsTrim s)) = true
        · by_cases hcond : (!(env.parseOutput s).sawJson
              && !truthyStr (some (jsTrim (env.parseOutput s).text))) = true
          · simp [runAgentForChat, hm, hsd, hts, hcond]
          · have hout : (runAgentForChat env prompt threads threadTurns).outcome
                = .ok (if truthyStr (some (env.parseOutput s).text)
                         then (env.parseOutput s).text else s) := by
              simp [runAgentForChat, hm, hsd, hts, hcond, finishAgentRun]
            rw [hout] at he
            exact absurd he (by simp)
        · simp [runAgentForChat, hm, hsd, hts]

/-- Runner environment: process fails with usable stdout (a parsed record). -/
def envC1A : AgentRunnerEnv :=
  ⟨3, "c", "a", false, fun s => s, "", "", fun s _ => s,
   fun _ => ⟨"hi", none, true⟩, false, none, .error ⟨some "out"⟩, .error ⟨none⟩⟩

/-- Runner environment: process fails with no stdout at all. -/
def envC1B : AgentRunnerEnv :=
  ⟨3, "c", "a", false, fun s => s, "", "", fun s _ => s,
   fun _ => ⟨"hi", none, true⟩, false, none, .error ⟨none⟩, .error ⟨none⟩⟩

theorem claim_C1_soft_vs_hard_failure_witness :
    (runAgentForChat envC1A "q" [] []).outcome = .ok "hi"
    ∧ (runAgentForChat envC1B "q" [] []).outcome = .error ⟨none⟩ := by
  constructor
  · have h := (claim_C1_soft_vs_hard_failure envC1A "q" [] [] ⟨some "out"⟩ rfl).1 "out" rfl
      (by decide) (Or.inl rfl)
    simpa using h
  · exact (claim_C1_soft_vs_hard_failure envC1B "q" [] [] ⟨none⟩ rfl).2
      (fun s hs => by cases hs)

/-- Runner environment: output parses with no session id, the agent exposes a
listing fallback whose output parses to a recovered session id. -/
def envC2 : AgentRunnerEnv :=
  ⟨3, "c", "a", false, fun s => s, "", "", fun s _ => s,
   fun _ => ⟨"hi", none, true⟩, true, some (fun _ => some "s-1"),
   .ok "raw", .ok "listing"⟩

theorem claim_C2_session_recovery_witness :
    (runAgentForChat envC2 "q" [] []).threads = [("c:a", "s-1")]
    ∧ (runAgentForChat envC2 "q" [] []).outcome = .ok "hi" := by
  have h := (claim_C2_session_recovery envC2 "q" [] [] "raw" rfl).2.1 rfl rfl
    "listing" (fun _ => some "s-1") "s-1" rfl rfl rfl (by decide)
  exact ⟨h.1.trans rfl, h.2.trans rfl⟩

theorem claim_C3_legacy_migration_witness :
    (resolveThreadId [("chat", "tid")] "chat" "codex").1 = ⟨"chat:codex", some "tid", true⟩
    ∧ (resolveThreadId (resolveThreadId [("chat", "tid")] "chat" "codex").2 "chat" "codex").1
      = ⟨"chat:codex", some "tid", false⟩ := by
  have h := claim_C3_legacy_migration [("chat", "tid")] "chat" "codex" "tid"
    (by decide) rfl (by decide)
  exact ⟨h.1, h.2.2.2.1⟩

theorem claim_C7_empty_and_persisted_witness :
    resolveThreadId ([] : ThreadMap) "chat7" "codex" = (⟨"chat7:codex", none, false⟩, [])
    ∧ resolveThreadId (mset [] (buildThreadKey "chat7" "codex") "sid-1") "chat7" "codex"
      = (⟨"chat7:codex", some "sid-1", false⟩,
         mset [] (buildThreadKey "chat7" "codex") "sid-1") := by
  have h := claim_C7_empty_and_persisted [] "chat7" "codex" "sid-1" (by decide)
  exact ⟨h.1, h.2⟩

theorem claim_C10_amended_witness :
    (runAgentForChat envC10 "hola" [("c", "t1")] []).threadTurns = [("c:a", 1)]
    ∧ (runAgentForChat envC10 "hola" [("c", "t1")] []).threads
      = (resolveThreadId [("c", "t1")] "c" "a").2 := by
  have h := claim_C10_amended_turns_and_threads envC10 "hola" [("c", "t1")] []
  exact ⟨h.1.trans rfl, h.2 ⟨none⟩ rfl⟩

/-! ## Codex adapter of the agents registry (spec-modelled)

The composition root consumes a multi-agent registry (`getAgent` from
src/agents.js) whose source file is absent here; only its tests and its
callers are present.  The codex adapter of that registry is therefore
modelled from the spec. -/

/-- One well-formed structured record of the codex newline-delimited json
stream: a thread announcement, a message item with an optional channel, or
some other record kind. -/
inductive CodexRecord where
  | threadStarted (threadId : String)
  | message (channel : Option String) (text : String)
  | other
deriving DecidableEq, Repr

/-- The message records of a stream, in order, as channel and text pairs. -/
def codexMessages (records : List CodexRecord) : List (Option String × String) :=
  records.filterMap fun r =>
    match r with
    | .message ch t => some (ch, t)
    | _ => none

/-- The text of the last message on the explicit final channel, when any. -/
def lastFinalMessage (msgs : List (Option String × String)) : Option String :=
  ((msgs.filter fun m => m.1 == some "final").getLast?).map fun m => m.2

/-- Modelled from the spec: `parseOutput` of the codex adapter in the agents
registry (src/agents.js, absent from the sources).  The line-level JSON
decoding is abstracted away: the input is the sequence of well-formed
records, malformed lines having been skipped.  The session id is the one of
the last thread announcement; the reply text is the text of the last record
on the explicit final channel when one exists, otherwise the text of the
chronologically last message; the structured-output flag is true exactly
when at least one record parsed. -/
def parseAgentsCodexOutput (records : List CodexRecord) : ParsedAgentOutput :=
  let msgs := codexMessages records
  let text :=
    match lastFinalMessage msgs with
    | some t => t
    | none => ((msgs.getLast?).map fun m => m.2).getD ""
  let threadId := (records.filterMap fun r =>
    match r with
    | .threadStarted i => some i
    | _ => none).getLast?
  ⟨text, threadId, !records.isEmpty⟩

/-- C4: on a stream with several well-formed message records and no channel
markers the parser returns exactly the last message text; a record carrying
the explicit final channel marker takes precedence over chronologically
later non-final messages. -/
theorem claim_C4_final_channel_precedence (records : List CodexRecord) :
    (∀ m, (codexMessages records).getLast? = some m →
      (∀ x ∈ codexMessages records, x.1 = none) →
      (parseAgentsCodexOutput records).text = m.2)
    ∧ (∀ t, (codexMessages records).filter (fun m => m.1 == some "final")
          = [(some "final", t)] →
      (parseAgentsCodexOutput records).text = t) := by
  constructor
  · intro m hlast hnone
    have hfilter : (codexMessages records).filter (fun m => m.1 == some "final") = [] := by
      refine List.filter_eq_nil_iff.mpr ?_
      intro x hx
      rw [hnone x hx]
      decide
    simp [parseAgentsCodexOutput, lastFinalMessage, hfilter, hlast]
  · intro t hfilter
    simp [parseAgentsCodexOutput, lastFinalMessage, hfilter]

theorem claim_C4_final_channel_precedence_witness :
    (parseAgentsCodexOutput [.message none "x", .message none "y"]).text = "y"
    ∧ (parseAgentsCodexOutput
        [.message (some "commentary") "c1", .message (some "final") "done",
         .message (some "commentary") "c2"]).text = "done" := by
  constructor
  · exact (claim_C4_final_channel_precedence
      [.message none "x", .message none "y"]).1 (none, "y") (by decide) (by decide)
  · exact (claim_C4_final_channel_precedence
      [.message (some "commentary") "c1", .message (some "final") "done",
       .message (some "commentary") "c2"]).2 "done" (by decide)

/-- The double quote as a one-character string. -/
def dquoteStr : String := ⟨[dquoteChar]⟩

/-- Modelled from the spec: `buildCommand` of the codex adapter in the agents
registry (src/agents.js, absent from the sources).  Command shape given by
the spec: codex exec, optional resume clause, the base flags, an optional
model flag and an optional reasoning-effort config flag, then the prompt,
every user-originated value passing through `shellQuote`. -/
def agentsCodexBuildCommand (prompt : String) (options : AgentCommandOptions) : String :=
  let promptValue := resolvePromptValue prompt options.promptExpression
  let args := BASE_ARGS
  let args :=
    if truthyStr options.model then args ++ " --model " ++ shellQuote (options.model.getD "")
    else args
  let args :=
    if truthyStr options.thinking then
      args ++ " --config " ++ shellQuote
        ("model_reasoning_effort=" ++ dquoteStr ++ options.thinking.getD "" ++ dquoteStr)
    else args
  if truthyStr options.threadId then
    CODEX_CMD ++ " exec resume " ++ shellQuote (options.threadId.getD "") ++ " " ++ args
      ++ " " ++ promptValue
  else
    CODEX_CMD ++ " exec " ++ args ++ " " ++ promptValue

/-- C8: with a thinking level provided, the registry codex command carries the
flag pair dash-dash-config with the single-quoted value
model_reasoning_effort equals the double-quoted level, and with a model
provided it carries dash-dash-model with the single-quoted model name. -/
theorem claim_C8_thinking_and_model_flags (p m t : String) (hm : m ≠ "") (ht : t ≠ "") :
    agentsCodexBuildCommand p ⟨none, none, some m, some t⟩
      = CODEX_CMD ++ " exec "
        ++ (BASE_ARGS ++ " --model " ++ shellQuote m ++ " --config "
            ++ shellQuote ("model_reasoning_effort=" ++ dquoteStr ++ t ++ dquoteStr))
        ++ " " ++ shellQuote p := by
  have hm2 : m.isEmpty = false := by
    cases h : m.isEmpty
    · rfl
    · exact absurd ((String.isEmpty_iff m).mp h) hm
  have ht2 : t.isEmpty = false := by
    cases h : t.isEmpty
    · rfl
    · exact absurd ((String.isEmpty_iff t).mp h) ht
  simp [agentsCodexBuildCommand, resolvePromptValue, truthyStr, hm2, ht2]

theorem claim_C8_thinking_and_model_flags_witness :
    agentsCodexBuildCommand "ping" ⟨none, none, some "gpt-5.2", some "medium"⟩
      = CODEX_CMD ++ " exec "
        ++ (BASE_ARGS ++ " --model " ++ shellQuote "gpt-5.2" ++ " --config "
            ++ shellQuote ("model_reasoning_effort=" ++ dquoteStr ++ "medium" ++ dquoteStr))
        ++ " " ++ shellQuote "ping" :=
  claim_C8_thinking_and_model_flags "ping" "gpt-5.2" "medium"
    (by decide) (by decide)

/-! ## Per-key serialized queue (spec-modelled)

The queue implementation (`createEnqueue` in src/services/queue.js) is not
among the sources; only its callers and tests are.  Modelled from the spec:
per key the submitted tasks form a chain; the task at the head of a chain
runs to completion, or to its throw, which the chain swallows, before the
next task of that chain starts; chains of different keys interleave without
restriction.  A task is abstracted as a number of atomic side-effect steps
plus a flag saying whether it ends by throwing. -/

/-- A task submitted to the queue: `steps` atomic side effects, then success
or a throw according to `fails`; the chain proceeds either way. -/
structure QueueTask where
  steps : Nat
  fails : Bool
deriving DecidableEq, Repr

/-- Scheduler state over a fixed per-key submission map: per key, the number
of tasks already finished and the progress inside the current task, plus the
global log of committed side effects, tagged (key, submission index, step
index) in commit order. -/
structure QueueState where
  done : String → Nat
  pos : String → Nat
  log : List (String × Nat × Nat)

/-- Pointwise update of a per-key counter. -/
def qupdate (f : String → Nat) (k : String) (v : Nat) : String → Nat :=
  fun x => if x = k then v else f x

/-- Interleaving small-step semantics of the queue: at any moment any key may
advance; a key either commits one more step of the task at the head of its
chain, or completes that task once all its steps ran.  A failing task
completes the same way: the chain swallows the failure, unblocking the next
task of the key. -/
inductive QueueStep (sub : String → List QueueTask) : QueueState → QueueState → Prop where
  | exec (s : QueueState) (k : String) (t : QueueTask)
      (ht : (sub k)[s.done k]? = some t) (hp : s.pos k < t.steps) :
      QueueStep sub s
        ⟨s.done, qupdate s.pos k (s.pos k + 1), s.log ++ [(k, s.done k, s.pos k)]⟩
  | finish (s : QueueState) (k : String) (t : QueueTask)
      (ht : (sub k)[s.done k]? = some t) (hp : s.pos k = t.steps) :
      QueueStep sub s ⟨qupdate s.done k (s.done k + 1), qupdate s.pos k 0, s.log⟩

/-- Initial state: nothing has run. -/
def queueInit : QueueState := ⟨fun _ => 0, fun _ => 0, []⟩

/-- Reachability under the interleaving semantics. -/
def QueueReachable (sub : String → List QueueTask) (s : QueueState) : Prop :=
  Relation.ReflTransGen (QueueStep sub) queueInit s

/-- Projection of the global effect log onto one key. -/
def keyLog (log : List (String × Nat × Nat)) (k : String) : List (Nat × Nat) :=
  log.filterMap fun e => if e.1 = k then some e.2 else none

/-- Number of steps of the task at submission index `i` under key `k`. -/
def taskStepsAt (sub : String → List QueueTask) (k : String) (i : Nat) : Nat :=
  ((sub k)[i]?.map QueueTask.steps).getD 0

/-- The fully serialized per-key log after `d` finished tasks and `p` steps
of the current task. -/
def canonicalKeyLog (sub : String → List QueueTask) (k : String) (d p : Nat) :
    List (Nat × Nat) :=
  ((List.range d).map fun i => (List.range (taskStepsAt sub k i)).map fun j => (i, j)).flatten
    ++ (List.range p).map fun j => (d, j)

theorem keyLog_append_one (log : List (String × Nat × Nat)) (k : String)
    (e : String × Nat × Nat) :
    keyLog (log ++ [e]) k = keyLog log k ++ (if e.1 = k then [e.2] else []) := by
  rw [keyLog, List.filterMap_append]
  congr 1
  by_cases he : e.1 = k
  · simp [he]
  · simp [he]

theorem canonicalKeyLog_step (sub : String → List QueueTask) (k : String) (d p : Nat) :
    canonicalKeyLog sub k d (p + 1) = canonicalKeyLog sub k d p ++ [(d, p)] := by
  rw [canonicalKeyLog, canonicalKeyLog, List.range_succ, List.map_append, List.append_assoc]
  simp

theorem canonicalKeyLog_finish (sub : String → List QueueTask) (k : String) (d : Nat)
    (t : QueueTask) (ht : (sub k)[d]? = some t) :
    canonicalKeyLog sub k (d + 1) 0 = canonicalKeyLog sub k d t.steps := by
  have hsteps : taskStepsAt sub k d = t.steps := by
    rw [taskStepsAt, ht]
    rfl
  rw [canonicalKeyLog, canonicalKeyLog, List.range_succ, List.map_append,
    List.flatten_append]
  simp [hsteps]

/-- The per-key projection of the log of any reachable state is exactly the
canonical serialized log of that key. -/
theorem queue_keyLog_invariant (sub : String → List QueueTask) (s : QueueState)
    (h : QueueReachable sub s) (k : String) :
    keyLog s.log k = canonicalKeyLog sub k (s.done k) (s.pos k) := by
  induction h with
  | refl => simp [queueInit, keyLog, canonicalKeyLog]
  | tail hab hbc ih =>
    cases hbc with
    | exec k' t ht hp =>
      dsimp only
      by_cases hk : k' = k
      · subst hk
        rw [keyLog_append_one, ih]
        simp [qupdate, canonicalKeyLog_step]
      · rw [keyLog_append_one, ih]
        simp [qupdate, hk, Ne.symm hk]
    | finish k' t ht hp =>
      dsimp only
      by_cases hk : k' = k
      · subst hk
        rw [ih]
        simp only [qupdate, eq_self_iff_true, if_true]
        rw [hp, canonicalKeyLog_finish sub k' _ t ht]
      · rw [ih]
        simp [qupdate, Ne.symm hk]

/-- The strict submission order on tagged effects of one key: an earlier task
entirely precedes a later one, and inside one task the steps are in order. -/
def lexLt (a b : Nat × Nat) : Prop :=
  a.1 < b.1 ∨ (a.1 = b.1 ∧ a.2 < b.2)

theorem canonicalKeyLog_pairwise (sub : String → List QueueTask) (k : String) (d p : Nat) :
    (canonicalKeyLog sub k d p).Pairwise lexLt := by
  rw [canonicalKeyLog, List.pairwise_append]
  refine ⟨?_, ?_, ?_⟩
  · rw [List.pairwise_flatten]
    constructor
    · intro l hl
      rcases List.mem_map.mp hl with ⟨i, _, rfl⟩
      exact (List.pairwise_lt_range _).map _
        (fun a b hab => Or.inr ⟨rfl, hab⟩)
    · refine (List.pairwise_lt_range d).map _ ?_
      intro a b hab x hx y hy
      rcases List.mem_map.mp hx with ⟨j1, _, rfl⟩
      rcases List.mem_map.mp hy with ⟨j2, _, rfl⟩
      exact Or.inl hab
  · exact (List.pairwise_lt_range p).map _ (fun a b hab => Or.inr ⟨rfl, hab⟩)
  · intro a ha b hb
    rcases List.mem_flatten.mp ha with ⟨l, hl, hal⟩
    rcases List.mem_map.mp hl with ⟨i, hi, rfl⟩
    rcases List.mem_map.mp hal with ⟨j, _, rfl⟩
    rcases List.mem_map.mp hb with ⟨j2, _, rfl⟩
    exact Or.inl (List.mem_range.mp hi)

/-- Submissions used in the interleaving demonstration: a two-step task under
key a and a one-step task under key b. -/
def subTwoKeys : String → List QueueTask := fun k =>
  if k = "a" then [⟨2, false⟩] else if k = "b" then [⟨1, false⟩] else []

/-- Submissions used in the failure demonstration: a failing one-step task
followed by a second task under the same key. -/
def subFailThenNext : String → List QueueTask := fun k =>
  if k = "k" then [⟨1, true⟩, ⟨1, false⟩] else []

/-- State after step one of key a. -/
def qsTwo1 : QueueState := ⟨fun _ => 0, qupdate (fun _ => 0) "a" 1, [("a", 0, 0)]⟩

/-- State after the step of key b ran between the two steps of key a. -/
def qsTwo2 : QueueState :=
  ⟨fun _ => 0, qupdate (qupdate (fun _ => 0) "a" 1) "b" 1, [("a", 0, 0), ("b", 0, 0)]⟩

/-- State after the second step of key a. -/
def qsTwo3 : QueueState :=
  ⟨fun _ => 0, qupdate (qupdate (qupdate (fun _ => 0) "a" 1) "b" 1) "a" 2,
   [("a", 0, 0), ("b", 0, 0), ("a", 0, 1)]⟩

theorem queue_trace_twoKeys : QueueReachable subTwoKeys qsTwo3 := by
  have h1 : QueueStep subTwoKeys queueInit qsTwo1 :=
    QueueStep.exec queueInit "a" ⟨2, false⟩ rfl (by decide)
  have h2 : QueueStep subTwoKeys qsTwo1 qsTwo2 :=
    QueueStep.exec qsTwo1 "b" ⟨1, false⟩ rfl (by decide)
  have h3 : QueueStep subTwoKeys qsTwo2 qsTwo3 :=
    QueueStep.exec qsTwo2 "a" ⟨2, false⟩ rfl (by decide)
  exact Relation.ReflTransGen.tail
    (Relation.ReflTransGen.tail (Relation.ReflTransGen.single h1) h2) h3

/-- State after the single step of the failing task. -/
def qsFail1 : QueueState := ⟨fun _ => 0, qupdate (fun _ => 0) "k" 1, [("k", 0, 0)]⟩

/-- State after the failing task completed; its throw is swallowed. -/
def qsFail2 : QueueState :=
  ⟨qupdate (fun _ => 0) "k" 1, qupdate (qupdate (fun _ => 0) "k" 1) "k" 0, [("k", 0, 0)]⟩

/-- State after the next task of the same key ran its step. -/
def qsFail3 : QueueState :=
  ⟨qupdate (fun _ => 0) "k" 1,
   qupdate (qupdate (qupdate (fun _ => 0) "k" 1) "k" 0) "k" 1,
   [("k", 0, 0), ("k", 1, 0)]⟩

theorem queue_trace_failThenNext : QueueReachable subFailThenNext qsFail3 := by
  have h1 : QueueStep subFailThenNext queueInit qsFail1 :=
    QueueStep.exec queueInit "k" ⟨1, true⟩ rfl (by decide)
  have h2 : QueueStep subFailThenNext qsFail1 qsFail2 :=
    QueueStep.finish qsFail1 "k" ⟨1, true⟩ rfl rfl
  have h3 : QueueStep subFailThenNext qsFail2 qsFail3 :=
    QueueStep.exec qsFail2 "k" ⟨1, false⟩ rfl (by decide)
  exact Relation.ReflTransGen.tail
    (Relation.ReflTransGen.tail (Relation.ReflTransGen.single h1) h2) h3

/-- C9: in every reachable state of the queue semantics the per-key effect log
is serialized in strict submission order: an effect of an earlier task
precedes every effect of a later task of the same key and steps inside one
task appear in order, so tasks of one key never overlap; tasks under
different keys may interleave, witnessed by a reachable state whose log
interleaves keys a and b; and a task that throws does not block later tasks
of its key, witnessed by a reachable state in which the task submitted after
a failing task has committed its effect. -/
theorem claim_C9_queue_serialization :
    (∀ (sub : String → List QueueTask) (s : QueueState), QueueReachable sub s →
      ∀ k, (keyLog s.log k).Pairwise lexLt)
    ∧ (∃ s, QueueReachable subTwoKeys s
        ∧ s.log = [("a", 0, 0), ("b", 0, 0), ("a", 0, 1)])
    ∧ ((subFailThenNext "k")[0]? = some ⟨1, true⟩
        ∧ ∃ s, QueueReachable subFailThenNext s
            ∧ s.log = [("k", 0, 0), ("k", 1, 0)]) := by
  refine ⟨?_, ⟨qsTwo3, queue_trace_twoKeys, rfl⟩,
    rfl, ⟨qsFail3, queue_trace_failThenNext, rfl⟩⟩
  intro sub s h k
  rw [queue_keyLog_invariant sub s h k]
  exact canonicalKeyLog_pairwise sub k _ _

theorem claim_C9_queue_serialization_witness :
    (keyLog [("a", 0, 0), ("b", 0, 0), ("a", 0, 1)] "a").Pairwise lexLt :=
  (claim_C9_queue_serialization).1 subTwoKeys qsTwo3 queue_trace_twoKeys "a"
